import Mathlib

/-!
Verification of the amortization core of `src/app.py` (loan-amorisation).

The Python code is embedded shallowly over `ℚ` (exact arithmetic in place of
IEEE floats), with Python's `round(x, 2)` modelled as exact round-half-to-even
at two decimal places, and Python's `ZeroDivisionError` modelled by an
`Except` error value.  The mutable running `balance` of the schedule loop is
made explicit as the recurrence `balanceAt`; each emitted row depends only on
the iteration index and the balance before that iteration, so the loop body is
embedded as a map over month indexes.
-/

namespace LoanAmort

/-- Round a rational to the nearest integer, ties to the even integer: the
semantics of Python's builtin `round` on an exactly-represented value. -/
def roundHalfEven (q : ℚ) : ℤ :=
  if Int.fract q < 1/2 then ⌊q⌋
  else if 1/2 < Int.fract q then ⌊q⌋ + 1
  else if ⌊q⌋ % 2 = 0 then ⌊q⌋ else ⌊q⌋ + 1

/-- Python's `round(q, 2)`: round to two decimal places, ties to even. -/
def round2 (q : ℚ) : ℚ := (roundHalfEven (100 * q) : ℚ) / 100

/-- Errors of the embedded program.  `zeroDivisionError` is what Python's `/`
raises on a zero denominator; `invalidParameter` is the rejection the spec's
error taxonomy (§7) asks for — nothing in `src/app.py` produces it, the
constructor exists only so that statements about it can be written down. -/
inductive PyError
  | zeroDivisionError
  | invalidParameter
deriving DecidableEq, Repr

/-- `calculate_emi` (src/app.py lines 8-12).  The `if` branch embeds the fact
that Python's division raises `ZeroDivisionError` when the denominator
`(1 + r)^n - 1` is zero; otherwise the annuity formula is returned. -/
def calculate_emi (P annual_rate : ℚ) (years : ℕ) : Except PyError ℚ :=
  let r := annual_rate / (12 * 100)
  let n := years * 12
  if (1 + r) ^ n - 1 = 0 then .error .zeroDivisionError
  else .ok (P * r * (1 + r) ^ n / ((1 + r) ^ n - 1))

/-- The value `calculate_emi` returns in its non-error branch. -/
def emiVal (P annual_rate : ℚ) (years : ℕ) : ℚ :=
  let r := annual_rate / (12 * 100)
  let n := years * 12
  P * r * (1 + r) ^ n / ((1 + r) ^ n - 1)

/-- One row of the schedule: the dict emitted at src/app.py lines 53-62
("Year", "Month", "Principal Paid", "Interest Charged", "Total EMI",
"Outstanding Balance", "Rent Received", "Amount Paid by User"). -/
structure Row where
  year : ℕ
  month : ℕ
  principalPaid : ℚ
  interestCharged : ℚ
  totalEMI : ℚ
  outstandingBalance : ℚ
  rentReceived : ℚ
  amountPaidByUser : ℚ
deriving DecidableEq, Repr

/-- The running `balance` of the loop in `generate_amortization`, before
iteration `k` (so `balanceAt … 0 = loan_amount`, and each step performs
lines 49-51: `balance -= emi - balance * monthly_rate`).  The running value is
not clamped; clamping to zero happens only in the emitted row. -/
def balanceAt (loan emi r : ℚ) : ℕ → ℚ
  | 0 => loan
  | k + 1 => balanceAt loan emi r k - (emi - balanceAt loan emi r k * r)

/-- The loop body of `generate_amortization` (src/app.py lines 38-62) for a
given 1-based `month`: year index, rent escalation, the vacancy test
`(month - 1) % 12 >= 12 - vacancy_months`, interest, principal, new balance,
and the emitted row with every monetary field passed through `round(·, 2)`.
(`vac : ℕ`; for `vac ≤ 12` the truncated `12 - vac` agrees with Python's
integer subtraction, and for `vac > 12` both make every month vacant.) -/
def mkRow (loan emi monthly_rate base inc : ℚ) (vac : ℕ) (month : ℕ) : Row :=
  let year := (month - 1) / 12
  let escalated := base * (1 + inc / 100) ^ year
  let effective := if 12 - vac ≤ (month - 1) % 12 then 0 else escalated
  let b := balanceAt loan emi monthly_rate (month - 1)
  let interest := b * monthly_rate
  let principal := emi - interest
  let balance := b - principal
  { year := year + 1
    month := month
    principalPaid := round2 principal
    interestCharged := round2 interest
    totalEMI := round2 emi
    outstandingBalance := round2 (max balance 0)
    rentReceived := round2 effective
    amountPaidByUser := round2 (emi - effective) }

/-- `generate_amortization` (src/app.py lines 20-64): down payment, loan
amount, EMI, then one row per month `1 .. tenure_years * 12`.  Returns the row
list and the (unrounded) EMI, or propagates the error `calculate_emi` raised. -/
def generate_amortization (property_value down_payment_percent annual_interest_rate : ℚ)
    (tenure_years : ℕ) (base_monthly_rent annual_rent_increase : ℚ) (vacancy_months : ℕ) :
    Except PyError (List Row × ℚ) :=
  let down_payment := property_value * down_payment_percent / 100
  let loan_amount := property_value - down_payment
  match calculate_emi loan_amount annual_interest_rate tenure_years with
  | .error e => .error e
  | .ok emi =>
    let monthly_rate := annual_interest_rate / (12 * 100)
    .ok ((List.range (tenure_years * 12)).map
          (fun i => mkRow loan_amount emi monthly_rate base_monthly_rent annual_rent_increase
            vacancy_months (i + 1)),
        emi)

/-- The row list of a successful `generate_amortization` call (empty list on
error); a convenience projection used to state concrete counterexamples. -/
def schedRows (pv dp rate : ℚ) (t : ℕ) (base inc : ℚ) (vac : ℕ) : List Row :=
  match generate_amortization pv dp rate t base inc vac with
  | .ok p => p.1
  | .error _ => []

/-- First-occurrence-order deduplication: the semantics of
`pandas.Series.unique()` used on the `"Year"` column at src/app.py line 220. -/
def pdUnique : List ℕ → List ℕ
  | [] => []
  | a :: l => a :: pdUnique (l.filter (fun b => b ≠ a))
termination_by l => l.length
decreasing_by
  exact Nat.lt_succ_of_le (List.length_filter_le _ _)

/-- `df[df["Year"] == y]["Rent Received"].mean()`: the mean of the emitted
`Rent Received` over the rows of year `y` (src/app.py lines 221-222). -/
def yearMean (rows : List Row) (y : ℕ) : ℚ :=
  let yearly := rows.filter (fun row => row.year = y)
  ((yearly.map Row.rentReceived).sum) / (yearly.length : ℚ)

/-- The break-even scan of src/app.py lines 218-224: walk `df["Year"].unique()`
in order and return the first year whose mean rent is `≥ emi`, else `None`. -/
def break_even_year (rows : List Row) (emi : ℚ) : Option ℕ :=
  (pdUnique (rows.map Row.year)).find? (fun year => decide (emi ≤ yearMean rows year))

/-- The rent-independent fields of a row: "Year", "Month", "Principal Paid",
"Interest Charged", "Total EMI", "Outstanding Balance". -/
def loanFields (r : Row) : ℕ × ℕ × ℚ × ℚ × ℚ × ℚ :=
  (r.year, r.month, r.principalPaid, r.interestCharged, r.totalEMI, r.outstandingBalance)

/-! ### Properties of the two-decimal rounding -/

lemma floor_le_roundHalfEven (q : ℚ) : ⌊q⌋ ≤ roundHalfEven q := by
  unfold roundHalfEven; split_ifs <;> omega

lemma roundHalfEven_le_floor_add_one (q : ℚ) : roundHalfEven q ≤ ⌊q⌋ + 1 := by
  unfold roundHalfEven; split_ifs <;> omega

lemma abs_roundHalfEven_sub (q : ℚ) : |(roundHalfEven q : ℚ) - q| ≤ 1/2 := by
  have h0 : 0 ≤ Int.fract q := Int.fract_nonneg q
  have h1 : Int.fract q < 1 := Int.fract_lt_one q
  have hq : (⌊q⌋ : ℚ) + Int.fract q = q := Int.floor_add_fract q
  unfold roundHalfEven
  split_ifs <;> rw [abs_le] <;> constructor <;> push_cast <;> linarith

lemma roundHalfEven_mono {a b : ℚ} (h : a ≤ b) : roundHalfEven a ≤ roundHalfEven b := by
  rcases lt_or_le ⌊a⌋ ⌊b⌋ with hf | hf
  · calc roundHalfEven a ≤ ⌊a⌋ + 1 := roundHalfEven_le_floor_add_one a
      _ ≤ ⌊b⌋ := by omega
      _ ≤ roundHalfEven b := floor_le_roundHalfEven b
  · have hfe : ⌊b⌋ = ⌊a⌋ := le_antisymm hf (Int.floor_le_floor h)
    have hfr : Int.fract a ≤ Int.fract b := by
      have ha := Int.floor_add_fract a
      have hb := Int.floor_add_fract b
      rw [hfe] at hb
      linarith
    unfold roundHalfEven
    rw [hfe]
    split_ifs <;> first | omega | linarith

lemma round2_mono {a b : ℚ} (h : a ≤ b) : round2 a ≤ round2 b := by
  unfold round2
  have h1 : roundHalfEven (100 * a) ≤ roundHalfEven (100 * b) :=
    roundHalfEven_mono (by linarith)
  have h2 : ((roundHalfEven (100 * a) : ℚ)) ≤ (roundHalfEven (100 * b) : ℚ) := by
    exact_mod_cast h1
  linarith

lemma round2_zero : round2 0 = 0 := by
  norm_num [round2, roundHalfEven]

lemma round2_nonneg {q : ℚ} (h : 0 ≤ q) : 0 ≤ round2 q :=
  round2_zero ▸ round2_mono h

lemma abs_round2_sub (q : ℚ) : |round2 q - q| ≤ 1/200 := by
  unfold round2
  have h := abs_roundHalfEven_sub (100 * q)
  have he : (roundHalfEven (100 * q) : ℚ) / 100 - q
      = ((roundHalfEven (100 * q) : ℚ) - 100 * q) / 100 := by ring
  rw [he, abs_div, show |(100 : ℚ)| = 100 by norm_num]
  rw [div_le_iff₀ (by norm_num : (0:ℚ) < 100)]
  linarith

lemma round2_hundredth (q : ℚ) : ∃ k : ℤ, round2 q = k / 100 :=
  ⟨roundHalfEven (100 * q), rfl⟩

lemma int_div_hundred_bound {k : ℤ} (h : |(k : ℚ) / 100| ≤ 3/200) : |(k : ℚ) / 100| ≤ 1/100 := by
  have habs : |(k : ℚ)| = ((|k| : ℤ) : ℚ) := Int.cast_abs.symm
  rw [abs_div, show |(100 : ℚ)| = 100 by norm_num, habs] at h ⊢
  have h1 : ((|k| : ℤ) : ℚ) ≤ 3/2 := by
    rw [div_le_iff₀ (by norm_num : (0:ℚ) < 100)] at h; linarith
  have h2 : |k| ≤ 1 := by
    by_contra hcon
    have : (2 : ℚ) ≤ ((|k| : ℤ) : ℚ) := by exact_mod_cast (by omega : (2:ℤ) ≤ |k|)
    linarith
  have h3 : ((|k| : ℤ) : ℚ) ≤ 1 := by exact_mod_cast h2
  rw [div_le_iff₀ (by norm_num : (0:ℚ) < 100)]
  linarith

/-- The rounded parts of a sum differ from the rounded sum by at most one cent. -/
lemma round2_triangle (a b : ℚ) : |round2 a + round2 b - round2 (a + b)| ≤ 1/100 := by
  obtain ⟨k1, h1⟩ := round2_hundredth a
  obtain ⟨k2, h2⟩ := round2_hundredth b
  obtain ⟨k3, h3⟩ := round2_hundredth (a + b)
  have ha := abs_le.mp (abs_round2_sub a)
  have hb := abs_le.mp (abs_round2_sub b)
  have hc := abs_le.mp (abs_round2_sub (a + b))
  have hk : round2 a + round2 b - round2 (a + b) = ((k1 + k2 - k3 : ℤ) : ℚ) / 100 := by
    rw [h1, h2, h3]; push_cast; ring
  rw [hk]
  apply int_div_hundred_bound
  rw [← hk]
  rw [abs_le]
  constructor <;> linarith [ha.1, ha.2, hb.1, hb.2, hc.1, hc.2]

/-! ### The EMI value and the closed form of the running balance -/

lemma one_lt_rate_base {rate : ℚ} (hr : 0 < rate) : 1 < 1 + rate / (12 * 100) := by
  have h : 0 < rate / (12 * 100) := by positivity
  linarith

lemma one_lt_rate_pow {rate : ℚ} (hr : 0 < rate) {n : ℕ} (hn : n ≠ 0) :
    1 < (1 + rate / (12 * 100)) ^ n :=
  one_lt_pow₀ (one_lt_rate_base hr) hn

/-- With a positive rate and at least one year of tenure, `calculate_emi` does
not raise and returns the annuity formula value. -/
lemma calculate_emi_eq_ok (P rate : ℚ) (years : ℕ) (hr : 0 < rate) (hy : 1 ≤ years) :
    calculate_emi P rate years = .ok (emiVal P rate years) := by
  have hX : 1 < (1 + rate / (12 * 100)) ^ (years * 12) :=
    one_lt_rate_pow hr (by omega)
  have hne : (1 + rate / (12 * 100)) ^ (years * 12) - 1 ≠ 0 :=
    sub_ne_zero.mpr (ne_of_gt hX)
  simp only [calculate_emi, emiVal]
  rw [if_neg hne]

/-- Closed form of the running balance when the installment is the annuity
EMI: after `k` months the balance is `loan * (X^n - X^k) / (X^n - 1)` where
`X = 1 + r` and `n` is the total number of months. -/
lemma balanceAt_closed_aux (loan r : ℚ) (n : ℕ) (hD : (1 + r) ^ n - 1 ≠ 0) :
    ∀ k : ℕ, balanceAt loan (loan * r * (1 + r) ^ n / ((1 + r) ^ n - 1)) r k
      = loan * ((1 + r) ^ n - (1 + r) ^ k) / ((1 + r) ^ n - 1) := by
  intro k
  induction k with
  | zero =>
    rw [balanceAt, pow_zero, mul_div_assoc, div_self hD, mul_one]
  | succ k ih =>
    simp only [balanceAt]
    rw [ih, pow_succ]
    field_simp
    ring

lemma balanceAt_closed (loan rate : ℚ) (t : ℕ) (hr : 0 < rate) (ht : 1 ≤ t) :
    ∀ k : ℕ, balanceAt loan (emiVal loan rate t) (rate / (12 * 100)) k
      = loan * ((1 + rate / (12 * 100)) ^ (t * 12) - (1 + rate / (12 * 100)) ^ k)
        / ((1 + rate / (12 * 100)) ^ (t * 12) - 1) := by
  have hX : 1 < (1 + rate / (12 * 100)) ^ (t * 12) := one_lt_rate_pow hr (by omega)
  have hDne : (1 + rate / (12 * 100)) ^ (t * 12) - 1 ≠ 0 := sub_ne_zero.mpr (ne_of_gt hX)
  simpa only [emiVal] using balanceAt_closed_aux loan (rate / (12 * 100)) (t * 12) hDne

lemma balanceAt_succ_le (loan rate : ℚ) (t : ℕ) (hloan : 0 < loan) (hr : 0 < rate)
    (ht : 1 ≤ t) (k : ℕ) :
    balanceAt loan (emiVal loan rate t) (rate / (12 * 100)) (k + 1)
      ≤ balanceAt loan (emiVal loan rate t) (rate / (12 * 100)) k := by
  rw [balanceAt_closed loan rate t hr ht, balanceAt_closed loan rate t hr ht]
  have hX : 1 < (1 + rate / (12 * 100)) ^ (t * 12) := one_lt_rate_pow hr (by omega)
  have hD : (0 : ℚ) < (1 + rate / (12 * 100)) ^ (t * 12) - 1 := by linarith
  have hpow : (1 + rate / (12 * 100)) ^ k ≤ (1 + rate / (12 * 100)) ^ (k + 1) :=
    pow_le_pow_right₀ (le_of_lt (one_lt_rate_base hr)) (by omega)
  gcongr

lemma balanceAt_nonneg (loan rate : ℚ) (t : ℕ) (hloan : 0 < loan) (hr : 0 < rate)
    (ht : 1 ≤ t) {k : ℕ} (hk : k ≤ t * 12) :
    0 ≤ balanceAt loan (emiVal loan rate t) (rate / (12 * 100)) k := by
  rw [balanceAt_closed loan rate t hr ht]
  have hX : 1 < (1 + rate / (12 * 100)) ^ (t * 12) := one_lt_rate_pow hr (by omega)
  have hD : (0 : ℚ) < (1 + rate / (12 * 100)) ^ (t * 12) - 1 := by linarith
  have hpow : (1 + rate / (12 * 100)) ^ k ≤ (1 + rate / (12 * 100)) ^ (t * 12) :=
    pow_le_pow_right₀ (le_of_lt (one_lt_rate_base hr)) hk
  exact div_nonneg (mul_nonneg (le_of_lt hloan) (by linarith)) (le_of_lt hD)

/-- In exact arithmetic the balance is exactly zero after the last month. -/
lemma balanceAt_final (loan rate : ℚ) (t : ℕ) (hr : 0 < rate) (ht : 1 ≤ t) :
    balanceAt loan (emiVal loan rate t) (rate / (12 * 100)) (t * 12) = 0 := by
  rw [balanceAt_closed loan rate t hr ht]
  simp

/-! ### Structure of the generated schedule -/

/-- With a positive rate and tenure, `generate_amortization` succeeds and its
rows are the `mkRow` images of months `1 .. t * 12`. -/
lemma generate_amortization_eq (pv dp rate : ℚ) (t : ℕ) (base inc : ℚ) (vac : ℕ)
    (hr : 0 < rate) (ht : 1 ≤ t) :
    generate_amortization pv dp rate t base inc vac =
      .ok ((List.range (t * 12)).map (fun i =>
          mkRow (pv - pv * dp / 100) (emiVal (pv - pv * dp / 100) rate t) (rate / (12 * 100))
            base inc vac (i + 1)),
        emiVal (pv - pv * dp / 100) rate t) := by
  simp only [generate_amortization, calculate_emi_eq_ok _ _ _ hr ht]

/-- The fields of the row of month `i + 1`, written in terms of the balance
recurrence. -/
lemma mkRow_fields (loan emi r base inc : ℚ) (vac i : ℕ) :
    mkRow loan emi r base inc vac (i + 1) =
      { year := i / 12 + 1
        month := i + 1
        principalPaid := round2 (emi - balanceAt loan emi r i * r)
        interestCharged := round2 (balanceAt loan emi r i * r)
        totalEMI := round2 emi
        outstandingBalance := round2 (max (balanceAt loan emi r (i + 1)) 0)
        rentReceived := round2 (if 12 - vac ≤ i % 12 then 0 else base * (1 + inc / 100) ^ (i / 12))
        amountPaidByUser :=
          round2 (emi - if 12 - vac ≤ i % 12 then 0 else base * (1 + inc / 100) ^ (i / 12)) } := by
  simp only [mkRow, balanceAt, Nat.add_sub_cancel]

/-- Bernoulli-style bound used for C9: `(1+r)^n - 1 ≤ n * r * (1+r)^n`. -/
lemma pow_sub_one_le_mul (r : ℚ) (hr : 0 ≤ r) : ∀ n : ℕ, (1 + r) ^ n - 1 ≤ n * r * (1 + r) ^ n := by
  intro n
  induction n with
  | zero => simp
  | succ k ih =>
    have hX : (1 : ℚ) ≤ (1 + r) ^ k := one_le_pow₀ (by linarith)
    have h1r : (0 : ℚ) ≤ 1 + r := by linarith
    have hXX : (1 : ℚ) ≤ (1 + r) ^ k * (1 + r) := by nlinarith [hX]
    have step2 : ((1 + r) ^ k - 1) * (1 + r) ≤ ((k : ℚ) * r * (1 + r) ^ k) * (1 + r) :=
      mul_le_mul_of_nonneg_right ih h1r
    have step3 : r * 1 ≤ r * ((1 + r) ^ k * (1 + r)) := mul_le_mul_of_nonneg_left hXX hr
    rw [pow_succ]
    push_cast
    nlinarith [step2, step3]

/-- C1: for positive principal, positive rate and a positive whole number of
years, `calculate_emi` returns exactly
`principal * r * (1+r)^n / ((1+r)^n - 1)` with `r = annualRatePercent/(12*100)`
and `n = years * 12`. -/
theorem C1_emi_formula (P rate : ℚ) (years : ℕ) (_hP : 0 < P) (hr : 0 < rate) (hy : 1 ≤ years) :
    calculate_emi P rate years =
      .ok (P * (rate / (12 * 100)) * (1 + rate / (12 * 100)) ^ (years * 12)
        / ((1 + rate / (12 * 100)) ^ (years * 12) - 1)) :=
  calculate_emi_eq_ok P rate years hr hy

theorem C1_emi_formula_witness :
    calculate_emi 1000 12 1 =
      .ok (1000 * ((12 : ℚ) / (12 * 100)) * (1 + (12 : ℚ) / (12 * 100)) ^ (1 * 12)
        / ((1 + (12 : ℚ) / (12 * 100)) ^ (1 * 12) - 1)) :=
  C1_emi_formula 1000 12 1 (by norm_num) (by norm_num) (by norm_num)

/-- C2, counterexample: at rate 0 the code raises `ZeroDivisionError` from the
unguarded division — it does not signal the spec's `InvalidParameter`. -/
theorem C2_counterexample :
    calculate_emi 1000 0 1 = .error .zeroDivisionError ∧
      (Except.error PyError.zeroDivisionError : Except PyError ℚ)
        ≠ .error .invalidParameter := by
  refine ⟨by norm_num [calculate_emi], fun h => ?_⟩
  injection h with h'
  exact PyError.noConfusion h'

/-- C2, amended: with `annualRatePercent = 0`, `calculate_emi` performs no
validation; the denominator `(1+r)^n - 1` is exactly `0`, so the call fails
with `ZeroDivisionError` (no NaN/Infinity is returned), not with an
`InvalidParameter` rejection. -/
theorem C2_zero_rate_zero_division (P : ℚ) (years : ℕ) :
    calculate_emi P 0 years = .error .zeroDivisionError := by
  simp [calculate_emi]

/-- C9: for valid inputs `calculate_emi` succeeds with a strictly positive
installment, and the installment times the number of months covers the
principal. -/
theorem C9_emi_positive_covers_principal (P rate : ℚ) (years : ℕ)
    (hP : 0 < P) (hr : 0 < rate) (hy : 1 ≤ years) :
    ∃ e : ℚ, calculate_emi P rate years = .ok e ∧ 0 < e ∧ P ≤ e * ((years : ℚ) * 12) := by
  refine ⟨emiVal P rate years, calculate_emi_eq_ok P rate years hr hy, ?_, ?_⟩
  · have hr' : (0 : ℚ) < rate / (12 * 100) := by positivity
    have hX : 1 < (1 + rate / (12 * 100)) ^ (years * 12) := one_lt_rate_pow hr (by omega)
    simp only [emiVal]
    exact div_pos (mul_pos (mul_pos hP hr') (by positivity)) (by linarith)
  · have hr' : (0 : ℚ) < rate / (12 * 100) := by positivity
    have hX : 1 < (1 + rate / (12 * 100)) ^ (years * 12) := one_lt_rate_pow hr (by omega)
    have hD : (0 : ℚ) < (1 + rate / (12 * 100)) ^ (years * 12) - 1 := by linarith
    have hb := pow_sub_one_le_mul (rate / (12 * 100)) (le_of_lt hr') (years * 12)
    push_cast at hb
    simp only [emiVal]
    rw [div_mul_eq_mul_div, le_div_iff₀ hD]
    have hmul := mul_le_mul_of_nonneg_left hb (le_of_lt hP)
    nlinarith [hmul]

theorem C9_emi_positive_covers_principal_witness :
    ∃ e : ℚ, calculate_emi 1000 12 1 = .ok e ∧ 0 < e ∧ (1000 : ℚ) ≤ e * ((1 : ℚ) * 12) :=
  C9_emi_positive_covers_principal 1000 12 1 (by norm_num) (by norm_num) (by norm_num)

/-- C10: two calls that differ only in the rent parameters (base rent, annual
increase, vacancy months) agree on the returned `emi` and on the Year, Month,
Principal Paid, Interest Charged, Total EMI and Outstanding Balance fields of
every row — the rent parameters influence only Rent Received and Amount Paid
by User. -/
theorem C10_rent_params_noninterference
    (pv dp rate : ℚ) (t : ℕ) (b1 i1 : ℚ) (v1 : ℕ) (b2 i2 : ℚ) (v2 : ℕ) :
    (generate_amortization pv dp rate t b1 i1 v1).map (fun p => (p.1.map loanFields, p.2)) =
    (generate_amortization pv dp rate t b2 i2 v2).map (fun p => (p.1.map loanFields, p.2)) := by
  simp only [generate_amortization]
  cases calculate_emi (pv - pv * dp / 100) rate t with
  | error e => rfl
  | ok emi =>
    simp only [Except.map]
    have hmaps : ((List.range (t * 12)).map (fun i =>
          mkRow (pv - pv * dp / 100) emi (rate / (12 * 100)) b1 i1 v1 (i + 1))).map loanFields
        = ((List.range (t * 12)).map (fun i =>
          mkRow (pv - pv * dp / 100) emi (rate / (12 * 100)) b2 i2 v2 (i + 1))).map loanFields := by
      rw [List.map_map, List.map_map]
      apply List.map_congr_left
      intro a _
      simp [mkRow, loanFields]
    rw [hmaps]

/-- C4: for positive loan amount, positive rate and positive tenure, the
emitted `outstandingBalance` is never negative, is non-increasing from row to
row, and is exactly zero at the final row. -/
theorem C4_outstanding_balance (pv dp rate : ℚ) (t : ℕ) (base inc : ℚ) (vac : ℕ)
    (hloan : 0 < pv - pv * dp / 100) (hr : 0 < rate) (ht : 1 ≤ t) :
    ∃ rows emi, generate_amortization pv dp rate t base inc vac = .ok (rows, emi) ∧
      (∀ i (hi : i < rows.length), 0 ≤ (rows.get ⟨i, hi⟩).outstandingBalance) ∧
      (∀ i (hi1 : i + 1 < rows.length) (hi0 : i < rows.length),
        (rows.get ⟨i + 1, hi1⟩).outstandingBalance ≤ (rows.get ⟨i, hi0⟩).outstandingBalance) ∧
      rows.getLast?.map Row.outstandingBalance = some 0 := by
  refine ⟨_, _, generate_amortization_eq pv dp rate t base inc vac hr ht, ?_, ?_, ?_⟩
  · intro i hi
    simp only [List.get_eq_getElem, List.getElem_map, List.getElem_range, mkRow_fields]
    exact round2_nonneg (le_max_right _ _)
  · intro i hi1 hi0
    simp only [List.get_eq_getElem, List.getElem_map, List.getElem_range, mkRow_fields]
    exact round2_mono
      (max_le_max (balanceAt_succ_le _ rate t hloan hr ht (i + 1)) le_rfl)
  · have hlen : ((List.range (t * 12)).map (fun i =>
        mkRow (pv - pv * dp / 100) (emiVal (pv - pv * dp / 100) rate t) (rate / (12 * 100))
          base inc vac (i + 1))).length = t * 12 := by simp
    rw [List.getLast?_eq_getElem?, hlen]
    have hlt : t * 12 - 1 < t * 12 := by omega
    rw [List.getElem?_map, List.getElem?_range hlt]
    simp only [Option.map_some', mkRow_fields]
    rw [show t * 12 - 1 + 1 = t * 12 by omega, balanceAt_final _ rate t hr ht]
    simp [round2_zero]

theorem C4_outstanding_balance_witness :
    ∃ rows emi, generate_amortization 1000 0 12 1 100 5 1 = .ok (rows, emi) ∧
      (∀ i (hi : i < rows.length), 0 ≤ (rows.get ⟨i, hi⟩).outstandingBalance) ∧
      (∀ i (hi1 : i + 1 < rows.length) (hi0 : i < rows.length),
        (rows.get ⟨i + 1, hi1⟩).outstandingBalance ≤ (rows.get ⟨i, hi0⟩).outstandingBalance) ∧
      rows.getLast?.map Row.outstandingBalance = some 0 :=
  C4_outstanding_balance 1000 0 12 1 100 5 1 (by norm_num) (by norm_num) (by norm_num)

/-! ### Evaluation lemmas for the rounding at concrete values -/

lemma roundHalfEven_eq_lt {m : ℤ} {q : ℚ} (h1 : (m : ℚ) ≤ q) (h2 : q < (m : ℚ) + 1/2) :
    roundHalfEven q = m := by
  have hf : ⌊q⌋ = m := Int.floor_eq_iff.mpr ⟨h1, by linarith⟩
  have hfr : Int.fract q < 1/2 := by
    have h := Int.floor_add_fract q
    rw [hf] at h
    linarith
  unfold roundHalfEven
  rw [if_pos hfr, hf]

lemma roundHalfEven_eq_gt {m : ℤ} {q : ℚ} (h1 : (m : ℚ) + 1/2 < q) (h2 : q < (m : ℚ) + 1) :
    roundHalfEven q = m + 1 := by
  have hf : ⌊q⌋ = m := Int.floor_eq_iff.mpr ⟨by linarith, by linarith⟩
  have h := Int.floor_add_fract q
  rw [hf] at h
  have hg : 1/2 < Int.fract q := by linarith
  unfold roundHalfEven
  rw [if_neg (by linarith), if_pos hg, hf]

lemma roundHalfEven_eq_half_odd {m : ℤ} {q : ℚ} (hodd : m % 2 = 1)
    (h : q = (m : ℚ) + 1/2) : roundHalfEven q = m + 1 := by
  have hf : ⌊q⌋ = m := Int.floor_eq_iff.mpr ⟨by linarith, by linarith⟩
  have hq := Int.floor_add_fract q
  rw [hf] at hq
  have hfr : Int.fract q = 1/2 := by linarith
  unfold roundHalfEven
  rw [hfr, hf, if_neg (by norm_num), if_neg (by norm_num), if_neg (by omega)]

lemma round2_eq_lt {m : ℤ} {q : ℚ} (h1 : (m : ℚ) ≤ 100 * q) (h2 : 100 * q < (m : ℚ) + 1/2) :
    round2 q = (m : ℚ) / 100 := by
  unfold round2
  rw [roundHalfEven_eq_lt h1 h2]

lemma round2_eq_gt {m : ℤ} {q : ℚ} (h1 : (m : ℚ) + 1/2 < 100 * q) (h2 : 100 * q < (m : ℚ) + 1) :
    round2 q = ((m : ℚ) + 1) / 100 := by
  unfold round2
  rw [roundHalfEven_eq_gt h1 h2]
  push_cast
  ring

lemma round2_eq_half_odd {m : ℤ} {q : ℚ} (hodd : m % 2 = 1) (h : 100 * q = (m : ℚ) + 1/2) :
    round2 q = ((m : ℚ) + 1) / 100 := by
  unfold round2
  rw [roundHalfEven_eq_half_odd hodd h]
  push_cast
  ring

/-- The rows of a successful call, as `mkRow` over the month indexes. -/
lemma schedRows_eq (pv dp rate : ℚ) (t : ℕ) (base inc : ℚ) (vac : ℕ)
    (hr : 0 < rate) (ht : 1 ≤ t) :
    schedRows pv dp rate t base inc vac = (List.range (t * 12)).map (fun i =>
      mkRow (pv - pv * dp / 100) (emiVal (pv - pv * dp / 100) rate t) (rate / (12 * 100))
        base inc vac (i + 1)) := by
  unfold schedRows
  rw [generate_amortization_eq pv dp rate t base inc vac hr ht]

/-- C5, counterexample: in the schedule for property value 1001, no down
payment, 12% rate, 1-year tenure, the row of month 3 has
`principalPaid + interestCharged` (80.51 + 8.42 = 88.93) one cent below the
emitted `totalInstallment` (88.94): the three independently rounded fields do
not satisfy the exact equality. -/
theorem C5_counterexample :
    ((schedRows 1001 0 12 1 100 5 1).map
      (fun r => r.principalPaid + r.interestCharged - r.totalEMI)).get? 2
      = some (-1/100) := by
  rw [schedRows_eq 1001 0 12 1 100 5 1 (by norm_num) (by norm_num), List.map_map,
    List.get?_eq_getElem?, List.getElem?_map, List.getElem?_range (by norm_num : (2:ℕ) < 1 * 12)]
  simp only [Option.map_some', Function.comp_apply, mkRow_fields]
  have hb := balanceAt_closed (1001 - 1001 * 0 / 100) 12 1 (by norm_num) (by norm_num) 2
  have hi : round2 (balanceAt (1001 - 1001 * 0 / 100)
        (emiVal (1001 - 1001 * 0 / 100) 12 1) (12 / (12 * 100)) 2 * (12 / (12 * 100)))
      = ((842 : ℤ) : ℚ) / 100 := by
    apply round2_eq_lt <;> rw [hb] <;> norm_num
  have hp : round2 (emiVal (1001 - 1001 * 0 / 100) 12 1
        - balanceAt (1001 - 1001 * 0 / 100)
            (emiVal (1001 - 1001 * 0 / 100) 12 1) (12 / (12 * 100)) 2 * (12 / (12 * 100)))
      = ((8051 : ℤ) : ℚ) / 100 := by
    apply round2_eq_lt <;> rw [hb] <;> simp only [emiVal] <;> norm_num
  have he : round2 (emiVal (1001 - 1001 * 0 / 100) 12 1)
      = (((8893 : ℤ) : ℚ) + 1) / 100 := by
    apply round2_eq_gt <;> simp only [emiVal] <;> norm_num
  rw [hp, hi, he]
  norm_num

/-- C5, amended: for every row the emitted `principalPaid + interestCharged`
differs from the emitted `totalInstallment` by at most one cent (the three
fields are roundings of exact values with `principal + interest = emi`
exactly). -/
theorem C5_row_sum_within_cent (pv dp rate : ℚ) (t : ℕ) (base inc : ℚ) (vac : ℕ)
    (hr : 0 < rate) (ht : 1 ≤ t) :
    ∃ rows emi, generate_amortization pv dp rate t base inc vac = .ok (rows, emi) ∧
      ∀ i (hi : i < rows.length),
        |(rows.get ⟨i, hi⟩).principalPaid + (rows.get ⟨i, hi⟩).interestCharged
          - (rows.get ⟨i, hi⟩).totalEMI| ≤ 1/100 := by
  refine ⟨_, _, generate_amortization_eq pv dp rate t base inc vac hr ht, ?_⟩
  intro i hi
  simp only [List.get_eq_getElem, List.getElem_map, List.getElem_range, mkRow_fields]
  have h := round2_triangle
    (emiVal (pv - pv * dp / 100) rate t
      - balanceAt (pv - pv * dp / 100) (emiVal (pv - pv * dp / 100) rate t)
          (rate / (12 * 100)) i * (rate / (12 * 100)))
    (balanceAt (pv - pv * dp / 100) (emiVal (pv - pv * dp / 100) rate t)
      (rate / (12 * 100)) i * (rate / (12 * 100)))
  rw [sub_add_cancel] at h
  exact h

theorem C5_row_sum_within_cent_witness :
    ∃ rows emi, generate_amortization 1000 0 12 1 100 5 1 = .ok (rows, emi) ∧
      ∀ i (hi : i < rows.length),
        |(rows.get ⟨i, hi⟩).principalPaid + (rows.get ⟨i, hi⟩).interestCharged
          - (rows.get ⟨i, hi⟩).totalEMI| ≤ 1/100 :=
  C5_row_sum_within_cent 1000 0 12 1 100 5 1 (by norm_num) (by norm_num)

/-- C8, counterexample: with base rent 500.003 (no escalation, no vacancy) on
the 1001 / 12% / 1-year loan, the first row has `amountPaidByUser = -411.07`
while `totalInstallment - rentReceived = 88.94 - 500 = -411.06`: the emitted
fields differ by one cent, because the code rounds `emi - effectiveRent` as a
whole rather than subtracting the two rounded fields. -/
theorem C8_counterexample :
    ((schedRows 1001 0 12 1 (500 + 3/1000) 0 0).map
      (fun r => r.amountPaidByUser - (r.totalEMI - r.rentReceived))).get? 0
      = some (-1/100) := by
  rw [schedRows_eq 1001 0 12 1 (500 + 3/1000) 0 0 (by norm_num) (by norm_num), List.map_map,
    List.get?_eq_getElem?, List.getElem?_map, List.getElem?_range (by norm_num : (0:ℕ) < 1 * 12)]
  simp only [Option.map_some', Function.comp_apply, mkRow_fields]
  have hvac : ¬ (12 - 0 ≤ 0 % 12) := by norm_num
  rw [if_neg hvac]
  have ha : round2 (emiVal (1001 - 1001 * 0 / 100) 12 1
        - (500 + 3/1000) * (1 + 0 / 100) ^ (0 / 12))
      = ((-41107 : ℤ) : ℚ) / 100 := by
    apply round2_eq_lt <;> simp only [emiVal] <;> push_cast <;> norm_num
  have he : round2 (emiVal (1001 - 1001 * 0 / 100) 12 1)
      = (((8893 : ℤ) : ℚ) + 1) / 100 := by
    apply round2_eq_gt <;> simp only [emiVal] <;> push_cast <;> norm_num
  have hrent : round2 ((500 + 3/1000 : ℚ) * (1 + 0 / 100) ^ (0 / 12))
      = ((50000 : ℤ) : ℚ) / 100 := by
    apply round2_eq_lt <;> push_cast <;> norm_num
  rw [ha, he, hrent]
  norm_num

/-- C8, amended: for every row the emitted `amountPaidByUser` equals the
rounding of the exact `emi - effectiveRent`, and hence differs from the
emitted `totalInstallment - rentReceived` by at most one cent (and it may be
negative when rental income exceeds the installment). -/
theorem C8_amount_paid_within_cent (pv dp rate : ℚ) (t : ℕ) (base inc : ℚ) (vac : ℕ)
    (hr : 0 < rate) (ht : 1 ≤ t) :
    ∃ rows emi, generate_amortization pv dp rate t base inc vac = .ok (rows, emi) ∧
      ∀ i (hi : i < rows.length),
        |(rows.get ⟨i, hi⟩).amountPaidByUser
          - ((rows.get ⟨i, hi⟩).totalEMI - (rows.get ⟨i, hi⟩).rentReceived)| ≤ 1/100 := by
  refine ⟨_, _, generate_amortization_eq pv dp rate t base inc vac hr ht, ?_⟩
  intro i hi
  simp only [List.get_eq_getElem, List.getElem_map, List.getElem_range, mkRow_fields]
  have h := round2_triangle
    (emiVal (pv - pv * dp / 100) rate t
      - (if 12 - vac ≤ i % 12 then 0 else base * (1 + inc / 100) ^ (i / 12)))
    (if 12 - vac ≤ i % 12 then 0 else base * (1 + inc / 100) ^ (i / 12))
  rw [sub_add_cancel] at h
  have he : round2 (emiVal (pv - pv * dp / 100) rate t
        - (if 12 - vac ≤ i % 12 then 0 else base * (1 + inc / 100) ^ (i / 12)))
      - (round2 (emiVal (pv - pv * dp / 100) rate t)
        - round2 (if 12 - vac ≤ i % 12 then 0 else base * (1 + inc / 100) ^ (i / 12)))
      = round2 (emiVal (pv - pv * dp / 100) rate t
        - (if 12 - vac ≤ i % 12 then 0 else base * (1 + inc / 100) ^ (i / 12)))
      + round2 (if 12 - vac ≤ i % 12 then 0 else base * (1 + inc / 100) ^ (i / 12))
      - round2 (emiVal (pv - pv * dp / 100) rate t) := by ring
  rw [he]
  exact h

theorem C8_amount_paid_within_cent_witness :
    ∃ rows emi, generate_amortization 1000 0 12 1 100 5 1 = .ok (rows, emi) ∧
      ∀ i (hi : i < rows.length),
        |(rows.get ⟨i, hi⟩).amountPaidByUser
          - ((rows.get ⟨i, hi⟩).totalEMI - (rows.get ⟨i, hi⟩).rentReceived)| ≤ 1/100 :=
  C8_amount_paid_within_cent 1000 0 12 1 100 5 1 (by norm_num) (by norm_num)

/-! ### Vacancy pattern (C3) -/

/-- A row's emitted rent is zero exactly at the vacancy positions, provided the
escalated rent is at least one cent (so that it does not round to zero). -/
lemma mkRow_rent_zero_iff (loan emi r base inc : ℚ) (vac i : ℕ)
    (hbase : 1/100 ≤ base) (hinc : 0 ≤ inc) :
    ((mkRow loan emi r base inc vac (i + 1)).rentReceived = 0) ↔ 12 - vac ≤ i % 12 := by
  simp only [mkRow_fields]
  by_cases hc : 12 - vac ≤ i % 12
  · simp [hc, round2_zero]
  · have hg : (1 : ℚ) ≤ (1 + inc / 100) ^ (i / 12) := one_le_pow₀ (by linarith)
    have hesc : 1/100 ≤ base * (1 + inc / 100) ^ (i / 12) := by nlinarith
    have h100 : round2 (1/100 : ℚ) = ((1 : ℤ) : ℚ) / 100 :=
      round2_eq_lt (by norm_num) (by norm_num)
    have hpos : (0 : ℚ) < round2 (base * (1 + inc / 100) ^ (i / 12)) := by
      have hm := round2_mono hesc
      rw [h100] at hm
      push_cast at hm
      linarith
    rw [if_neg hc]
    exact iff_of_false (ne_of_gt hpos) hc

lemma drop_take_range (N s : ℕ) (h : s + 12 ≤ N) :
    ((List.range N).drop s).take 12 = List.range' s 12 := by
  have h1 : List.range N = List.range' 0 s ++ List.range' s (N - s) := by
    have hap := List.range'_append_1 0 s (N - s)
    rw [Nat.zero_add] at hap
    conv_lhs => rw [List.range_eq_range', show N = (N - s) + s by omega]
    exact hap.symm
  rw [h1, List.drop_left' (by simp)]
  have h2 : List.range' s (N - s) = List.range' s 12 ++ List.range' (s + 12) (N - s - 12) := by
    have hap := List.range'_append_1 s 12 (N - s - 12)
    rw [show N - s = (N - s - 12) + 12 by omega]
    exact hap.symm
  rw [h2, List.take_left' (by simp)]

lemma countP_range_le (n k : ℕ) :
    List.countP (fun j => decide (k ≤ j)) (List.range n) = n - k := by
  induction n with
  | zero => simp
  | succ n ih =>
    rw [List.range_succ, List.countP_append, ih]
    simp only [List.countP_cons, List.countP_nil, Nat.zero_add]
    by_cases h : k ≤ n
    · simp [h]; omega
    · simp [h]; omega

/-- C3, counterexample: with `baseMonthlyRent = 0.001 > 0` and
`vacancyMonthsPerYear = 1`, all 12 rows of the first cycle have
`rentReceived == 0` (the tiny non-vacant rent rounds to `0.00`), not exactly
one row as the claim demands. -/
theorem C3_counterexample :
    ((schedRows 1000 0 12 1 (1/1000) 5 1).filter
      (fun r => r.rentReceived = 0)).length = 12 ∧ (12 : ℕ) ≠ 1 := by
  refine ⟨?_, by decide⟩
  rw [schedRows_eq 1000 0 12 1 (1/1000) 5 1 (by norm_num) (by norm_num)]
  rw [← List.countP_eq_length_filter, List.countP_map]
  have hall : ∀ a ∈ List.range (1 * 12),
      ((fun r => decide (r.rentReceived = 0)) ∘ (fun i =>
        mkRow (1000 - 1000 * 0 / 100) (emiVal (1000 - 1000 * 0 / 100) 12 1) (12 / (12 * 100))
          (1/1000) 5 1 (i + 1))) a = true := by
    intro a ha
    have ha' : a < 12 := by simpa using ha
    simp only [Function.comp_apply, mkRow_fields, decide_eq_true_eq]
    rw [Nat.div_eq_of_lt ha', pow_zero, mul_one]
    by_cases hv : 12 - 1 ≤ a % 12
    · rw [if_pos hv, round2_zero]
    · rw [if_neg hv]
      have h0 : round2 ((1 : ℚ)/1000) = ((0 : ℤ) : ℚ) / 100 :=
        round2_eq_lt (by norm_num) (by norm_num)
      rw [h0]
      norm_num
  rw [List.countP_eq_length.mpr hall, List.length_range]

/-- C3, amended: for a schedule with positive rate and tenure,
`baseMonthlyRent ≥ 0.01` (one cent, so the rent survives the two-decimal
rounding), `annualRentIncreasePercent ≥ 0` and `vacancyMonthsPerYear = v ≤ 12`,
a row has `rentReceived == 0` exactly when its cycle position
`(month - 1) mod 12` is `≥ 12 - v` (the last `v` positions), and each aligned
12-month cycle has exactly `v` such rows; in particular `v = 0` gives no
vacant row. -/
theorem C3_vacancy_pattern (pv dp rate : ℚ) (t : ℕ) (base inc : ℚ) (vac : ℕ)
    (hr : 0 < rate) (ht : 1 ≤ t) (hbase : 1/100 ≤ base) (hinc : 0 ≤ inc) (hvac : vac ≤ 12) :
    ∃ rows emi, generate_amortization pv dp rate t base inc vac = .ok (rows, emi) ∧
      (∀ i (hi : i < rows.length),
        ((rows.get ⟨i, hi⟩).rentReceived = 0 ↔ 12 - vac ≤ i % 12)) ∧
      (∀ y, y < t → (((rows.drop (12 * y)).take 12).filter
        (fun row => row.rentReceived = 0)).length = vac) := by
  refine ⟨_, _, generate_amortization_eq pv dp rate t base inc vac hr ht, ?_, ?_⟩
  · intro i hi
    simp only [List.get_eq_getElem, List.getElem_map, List.getElem_range]
    exact mkRow_rent_zero_iff _ _ _ base inc vac i hbase hinc
  · intro y hy
    rw [← List.map_drop, ← List.map_take, drop_take_range (t * 12) (12 * y) (by omega)]
    rw [← List.countP_eq_length_filter, List.countP_map]
    rw [List.range'_eq_map_range, List.countP_map]
    have hcongr : ∀ j ∈ List.range 12,
        (((fun r => decide (r.rentReceived = 0)) ∘ (fun i =>
            mkRow (pv - pv * dp / 100) (emiVal (pv - pv * dp / 100) rate t) (rate / (12 * 100))
              base inc vac (i + 1))) ∘ (fun j => 12 * y + j)) j
          ↔ (fun j => decide (12 - vac ≤ j)) j := by
      intro j hj
      have hj' : j < 12 := by simpa using hj
      simp only [Function.comp_apply, decide_eq_true_eq]
      rw [mkRow_rent_zero_iff _ _ _ base inc vac (12 * y + j) hbase hinc]
      omega
    rw [List.countP_congr hcongr, countP_range_le 12 (12 - vac)]
    omega

theorem C3_vacancy_pattern_witness :
    ∃ rows emi, generate_amortization 1000 0 12 1 100 5 1 = .ok (rows, emi) ∧
      (∀ i (hi : i < rows.length),
        ((rows.get ⟨i, hi⟩).rentReceived = 0 ↔ 12 - 1 ≤ i % 12)) ∧
      (∀ y, y < 1 → (((rows.drop (12 * y)).take 12).filter
        (fun row => row.rentReceived = 0)).length = 1) :=
  C3_vacancy_pattern 1000 0 12 1 100 5 1 (by norm_num) (by norm_num) (by norm_num)
    (by norm_num) (by norm_num)

/-! ### Rent escalation (C7) -/

lemma ratio_pow (g basev : ℚ) (hg : 0 < g) (hb : basev ≠ 0) (a b : ℕ) :
    (basev * g ^ b) / (basev * g ^ a) = g ^ ((b : ℤ) - (a : ℤ)) := by
  have h1 : g ^ ((b : ℤ) - (a : ℤ)) = g ^ (b : ℤ) / g ^ (a : ℤ) :=
    zpow_sub₀ (ne_of_gt hg) _ _
  rw [h1, zpow_natCast, zpow_natCast, mul_div_mul_left _ _ hb]

/-- C7, counterexample: on the default-style inputs (75000 base rent, 5%
escalation, 1 vacancy month, 4-year tenure) the non-vacant rows of month 1
(year 1) and month 37 (year 4) carry emitted rents 75000 and 86821.88; their
ratio differs from `(1 + 5/100)^3` because the exact year-4 rent 86821.875 was
rounded to two decimals at emission. -/
theorem C7_counterexample :
    ((schedRows 1000000 10 (74/10) 4 75000 5 1).map
        (fun r => (r.year, r.rentReceived))).get? 0 = some (1, 75000) ∧
      ((schedRows 1000000 10 (74/10) 4 75000 5 1).map
        (fun r => (r.year, r.rentReceived))).get? 36 = some (4, 2170547/25) ∧
      (2170547/25 : ℚ) / 75000 ≠ (1 + 5/100 : ℚ) ^ (4 - 1 : ℕ) := by
  have hsr := schedRows_eq 1000000 10 (74/10) 4 75000 5 1 (by norm_num) (by norm_num)
  refine ⟨?_, ?_, by norm_num⟩
  · rw [hsr, List.map_map, List.get?_eq_getElem?, List.getElem?_map,
      List.getElem?_range (by norm_num : (0:ℕ) < 4 * 12)]
    simp only [Option.map_some', Function.comp_apply, mkRow_fields]
    rw [if_neg (by norm_num)]
    have h75 : round2 ((75000 : ℚ) * (1 + 5/100) ^ ((0:ℕ)/12))
        = ((7500000 : ℤ) : ℚ) / 100 := round2_eq_lt (by norm_num) (by norm_num)
    rw [h75]
    norm_num
  · rw [hsr, List.map_map, List.get?_eq_getElem?, List.getElem?_map,
      List.getElem?_range (by norm_num : (36:ℕ) < 4 * 12)]
    simp only [Option.map_some', Function.comp_apply, mkRow_fields]
    rw [if_neg (by norm_num)]
    have h36 : round2 ((75000 : ℚ) * (1 + 5/100) ^ ((36:ℕ)/12))
        = (((8682187 : ℤ) : ℚ) + 1) / 100 :=
      round2_eq_half_odd (by decide) (by norm_num)
    rw [h36]
    norm_num

/-- C7, amended: for two non-vacant rows of a schedule with `base > 0` and
`annualRentIncreasePercent ≥ 0`, each row's `rentReceived` is the two-decimal
rounding of the exact escalated rent `base * (1 + inc/100)^(year - 1)`, and
those exact (pre-rounding) rents stand in the ratio
`(1 + inc/100)^(yearDiff)`; the emitted (rounded) values may deviate from this
ratio, as the counterexample shows. -/
theorem C7_rent_escalation (pv dp rate : ℚ) (t : ℕ) (base inc : ℚ) (vac : ℕ)
    (hr : 0 < rate) (ht : 1 ≤ t) (hbase : 0 < base) (hinc : 0 ≤ inc) :
    ∃ rows emi, generate_amortization pv dp rate t base inc vac = .ok (rows, emi) ∧
      ∀ i j (hi : i < rows.length) (hj : j < rows.length),
        ¬ (12 - vac ≤ i % 12) → ¬ (12 - vac ≤ j % 12) →
        (rows.get ⟨i, hi⟩).rentReceived
            = round2 (base * (1 + inc / 100) ^ ((rows.get ⟨i, hi⟩).year - 1)) ∧
        (rows.get ⟨j, hj⟩).rentReceived
            = round2 (base * (1 + inc / 100) ^ ((rows.get ⟨j, hj⟩).year - 1)) ∧
        (base * (1 + inc / 100) ^ ((rows.get ⟨j, hj⟩).year - 1))
            / (base * (1 + inc / 100) ^ ((rows.get ⟨i, hi⟩).year - 1))
          = (1 + inc / 100) ^ (((rows.get ⟨j, hj⟩).year : ℤ) - ((rows.get ⟨i, hi⟩).year : ℤ)) := by
  refine ⟨_, _, generate_amortization_eq pv dp rate t base inc vac hr ht, ?_⟩
  intro i j hi hj hni hnj
  have hg : (0 : ℚ) < 1 + inc / 100 := by linarith
  simp only [List.get_eq_getElem, List.getElem_map, List.getElem_range, mkRow_fields,
    Nat.add_sub_cancel]
  rw [if_neg hni, if_neg hnj]
  refine ⟨rfl, rfl, ?_⟩
  rw [show ((j / 12 + 1 : ℕ) : ℤ) - ((i / 12 + 1 : ℕ) : ℤ)
      = ((j / 12 : ℕ) : ℤ) - ((i / 12 : ℕ) : ℤ) by push_cast; ring]
  exact ratio_pow (1 + inc / 100) base hg (ne_of_gt hbase) (i / 12) (j / 12)

theorem C7_rent_escalation_witness :
    ∃ rows emi, generate_amortization 1000 0 12 1 100 5 1 = .ok (rows, emi) ∧
      ∀ i j (hi : i < rows.length) (hj : j < rows.length),
        ¬ (12 - 1 ≤ i % 12) → ¬ (12 - 1 ≤ j % 12) →
        (rows.get ⟨i, hi⟩).rentReceived
            = round2 (100 * (1 + 5 / 100) ^ ((rows.get ⟨i, hi⟩).year - 1)) ∧
        (rows.get ⟨j, hj⟩).rentReceived
            = round2 (100 * (1 + 5 / 100) ^ ((rows.get ⟨j, hj⟩).year - 1)) ∧
        ((100 : ℚ) * (1 + 5 / 100) ^ ((rows.get ⟨j, hj⟩).year - 1))
            / (100 * (1 + 5 / 100) ^ ((rows.get ⟨i, hi⟩).year - 1))
          = (1 + 5 / 100 : ℚ) ^ (((rows.get ⟨j, hj⟩).year : ℤ) - ((rows.get ⟨i, hi⟩).year : ℤ)) :=
  C7_rent_escalation 1000 0 12 1 100 5 1 (by norm_num) (by norm_num) (by norm_num) (by norm_num)

/-! ### The year column and the break-even scan (C6) -/

lemma rows_map_year (L E R base inc : ℚ) (vac N : ℕ) :
    (((List.range N).map (fun i => mkRow L E R base inc vac (i + 1))).map Row.year)
      = (List.range N).map (fun i => i / 12 + 1) := by
  rw [List.map_map]
  apply List.map_congr_left
  intro a _
  simp [mkRow_fields]

lemma pdUnique_cons (a : ℕ) (l : List ℕ) :
    pdUnique (a :: l) = a :: pdUnique (l.filter (fun b => b ≠ a)) := by
  rw [pdUnique]

lemma yearsFrom_succ (s t : ℕ) :
    (List.range ((t + 1) * 12)).map (fun i => s + i / 12 + 1)
      = List.replicate 12 (s + 1) ++ (List.range (t * 12)).map (fun i => (s + 1) + i / 12 + 1) := by
  rw [show (t + 1) * 12 = 12 + t * 12 by ring, List.range_add, List.map_append]
  have hA : (List.range 12).map (fun i => s + i / 12 + 1) = List.replicate 12 (s + 1) := by
    rw [List.eq_replicate_iff]
    refine ⟨by simp, ?_⟩
    intro b hb
    simp only [List.mem_map, List.mem_range] at hb
    obtain ⟨i, hi, rfl⟩ := hb
    omega
  have hB : ((List.range (t * 12)).map (fun x => 12 + x)).map (fun i => s + i / 12 + 1)
      = (List.range (t * 12)).map (fun i => (s + 1) + i / 12 + 1) := by
    rw [List.map_map]
    apply List.map_congr_left
    intro a _
    simp only [Function.comp_apply]
    omega
  rw [hA, hB]

lemma pdUnique_years : ∀ t s, pdUnique ((List.range (t * 12)).map (fun i => s + i / 12 + 1))
    = (List.range t).map (fun y => s + y + 1) := by
  intro t
  induction t with
  | zero => intro s; simp [pdUnique]
  | succ t ih =>
    intro s
    rw [yearsFrom_succ s t,
      show List.replicate 12 (s + 1) = (s + 1) :: List.replicate 11 (s + 1) from rfl,
      List.cons_append, pdUnique_cons, List.filter_append]
    have hrep : (List.replicate 11 (s + 1)).filter (fun b => b ≠ s + 1) = [] := by
      simp [List.filter_replicate]
    have hrest : ((List.range (t * 12)).map (fun i => (s + 1) + i / 12 + 1)).filter
        (fun b => b ≠ s + 1) = (List.range (t * 12)).map (fun i => (s + 1) + i / 12 + 1) := by
      rw [List.filter_eq_self]
      intro b hb
      simp only [List.mem_map, List.mem_range] at hb
      obtain ⟨i, hi, rfl⟩ := hb
      simp only [ne_eq, decide_eq_true_eq]
      omega
    rw [hrep, hrest, List.nil_append, ih (s + 1), List.range_succ_eq_map, List.map_cons,
      List.map_map]
    congr 1
    apply List.map_congr_left
    intro a _
    simp only [Function.comp_apply]
    omega

lemma find?_pairwise {p : ℕ → Bool} : ∀ {l : List ℕ}, l.Pairwise (· < ·) →
    ∀ {y}, l.find? p = some y → y ∈ l ∧ p y = true ∧ ∀ z ∈ l, z < y → p z = false := by
  intro l
  induction l with
  | nil => intro _ y h; simp at h
  | cons a l ih =>
    intro hl y h
    rcases List.pairwise_cons.mp hl with ⟨ha, hl'⟩
    by_cases hpa : p a
    · rw [List.find?_cons_of_pos _ hpa] at h
      have hya : y = a := by injection h with h; omega
      subst hya
      refine ⟨List.mem_cons_self _ _, hpa, ?_⟩
      intro z hz hzy
      rcases List.mem_cons.mp hz with rfl | hz'
      · omega
      · exact absurd (ha z hz') (by omega)
    · rw [List.find?_cons_of_neg _ hpa] at h
      obtain ⟨hmem, hpy, hmin⟩ := ih hl' h
      refine ⟨List.mem_cons_of_mem _ hmem, hpy, ?_⟩
      intro z hz hzy
      rcases List.mem_cons.mp hz with rfl | hz'
      · simp only [Bool.not_eq_true] at hpa
        exact hpa
      · exact hmin z hz' hzy

lemma countP_year (t y : ℕ) (h1 : 1 ≤ y) (h2 : y ≤ t) :
    List.countP (fun i => decide (i / 12 + 1 = y)) (List.range (t * 12)) = 12 := by
  induction t with
  | zero => omega
  | succ t ih =>
    rw [show (t + 1) * 12 = t * 12 + 12 by ring, List.range_add, List.countP_append,
      List.countP_map]
    by_cases hy : y = t + 1
    · subst hy
      rw [List.countP_eq_zero.mpr ?h0, List.countP_eq_length.mpr ?hall]
      case h0 =>
        intro a ha
        simp only [List.mem_range] at ha
        simp only [decide_eq_true_eq]
        omega
      case hall =>
        intro a ha
        simp only [List.mem_range] at ha
        simp only [Function.comp_apply, decide_eq_true_eq]
        omega
      simp
    · have h2' : y ≤ t := by omega
      rw [ih h2', List.countP_eq_zero.mpr ?hz]
      case hz =>
        intro a ha
        simp only [List.mem_range] at ha
        simp only [Function.comp_apply, decide_eq_true_eq]
        omega

/-- C6: `break_even_year` is the smallest year (scanning years `1..tenure` in
ascending order) whose mean emitted rent is `≥ emi`, and is `none` when no
year within the tenure qualifies; each year within the tenure indeed
contributes exactly 12 rows to the mean. -/
theorem C6_break_even_minimal (pv dp rate : ℚ) (t : ℕ) (base inc : ℚ) (vac : ℕ)
    (hr : 0 < rate) (ht : 1 ≤ t) :
    ∃ rows emi, generate_amortization pv dp rate t base inc vac = .ok (rows, emi) ∧
      (∀ y, 1 ≤ y → y ≤ t → (rows.filter (fun row => row.year = y)).length = 12) ∧
      (∀ y, break_even_year rows emi = some y →
        (1 ≤ y ∧ y ≤ t ∧ emi ≤ yearMean rows y ∧
          ∀ z, 1 ≤ z → z < y → ¬ emi ≤ yearMean rows z)) ∧
      (break_even_year rows emi = none →
        ∀ y, 1 ≤ y → y ≤ t → ¬ emi ≤ yearMean rows y) := by
  have hYL : pdUnique ((((List.range (t * 12)).map (fun i =>
        mkRow (pv - pv * dp / 100) (emiVal (pv - pv * dp / 100) rate t) (rate / (12 * 100))
          base inc vac (i + 1))).map Row.year))
      = (List.range t).map (fun y => y + 1) := by
    rw [rows_map_year]
    have h0 : (List.range (t * 12)).map (fun i => i / 12 + 1)
        = (List.range (t * 12)).map (fun i => 0 + i / 12 + 1) := by
      apply List.map_congr_left; intro a _; omega
    rw [h0, pdUnique_years t 0]
    apply List.map_congr_left; intro a _; omega
  have hmemiff : ∀ y : ℕ, y ∈ (List.range t).map (fun z => z + 1) ↔ (1 ≤ y ∧ y ≤ t) := by
    intro y
    simp only [List.mem_map, List.mem_range]
    constructor
    · rintro ⟨a, ha, rfl⟩; omega
    · intro h; exact ⟨y - 1, by omega, by omega⟩
  have hpair : ((List.range t).map (fun z => z + 1)).Pairwise (· < ·) :=
    (List.pairwise_lt_range t).map _ (by intro a b hab; omega)
  refine ⟨_, _, generate_amortization_eq pv dp rate t base inc vac hr ht, ?_, ?_, ?_⟩
  · intro y hy1 hy2
    rw [← List.countP_eq_length_filter, List.countP_map]
    have hcg : ∀ i ∈ List.range (t * 12),
        ((fun row => decide (row.year = y)) ∘ (fun i =>
          mkRow (pv - pv * dp / 100) (emiVal (pv - pv * dp / 100) rate t) (rate / (12 * 100))
            base inc vac (i + 1))) i ↔ (fun i => decide (i / 12 + 1 = y)) i := by
      intro i _
      simp [mkRow_fields]
    rw [List.countP_congr hcg]
    exact countP_year t y hy1 hy2
  · intro y hy
    unfold break_even_year at hy
    rw [hYL] at hy
    obtain ⟨hm, hp, hmin⟩ := find?_pairwise hpair hy
    rw [hmemiff y] at hm
    have hp' : emiVal (pv - pv * dp / 100) rate t
        ≤ yearMean ((List.range (t * 12)).map (fun i =>
            mkRow (pv - pv * dp / 100) (emiVal (pv - pv * dp / 100) rate t) (rate / (12 * 100))
              base inc vac (i + 1))) y := by
      simpa using hp
    refine ⟨hm.1, hm.2, hp', ?_⟩
    intro z hz1 hz2
    have hzm : z ∈ (List.range t).map (fun zz => zz + 1) :=
      (hmemiff z).mpr ⟨hz1, by omega⟩
    have hf := hmin z hzm hz2
    simpa using hf
  · intro hy y hy1 hy2
    unfold break_even_year at hy
    rw [hYL, List.find?_eq_none] at hy
    have hz := hy y ((hmemiff y).mpr ⟨hy1, hy2⟩)
    simpa using hz

theorem C6_break_even_minimal_witness :
    ∃ rows emi, generate_amortization 1000 0 12 1 100 5 1 = .ok (rows, emi) ∧
      (∀ y, 1 ≤ y → y ≤ 1 → (rows.filter (fun row => row.year = y)).length = 12) ∧
      (∀ y, break_even_year rows emi = some y →
        (1 ≤ y ∧ y ≤ 1 ∧ emi ≤ yearMean rows y ∧
          ∀ z, 1 ≤ z → z < y → ¬ emi ≤ yearMean rows z)) ∧
      (break_even_year rows emi = none →
        ∀ y, 1 ≤ y → y ≤ 1 → ¬ emi ≤ yearMean rows y) :=
  C6_break_even_minimal 1000 0 12 1 100 5 1 (by norm_num) (by norm_num)

end LoanAmort
